import Mathlib

/-!
Verification of the response-parsing and schema-normalization pipeline of
`src/app.py` (engineering-drawing datasheet extractor).

Strings are modelled as lists of characters (`Str`), so that the Python
string primitives used by the source (`split`, `strip`, `upper`, `in`,
`split(':', 1)`) can be embedded as structurally recursive functions and
reasoned about by induction.
-/

/-- Strings of the embedded program: Python `str` as a list of characters. -/
abbrev Str := List Char

/-- ASCII model of Python's whitespace set used by `str.strip()`:
space, tab, newline, carriage return, vertical tab, form feed. -/
def isPySpace (c : Char) : Bool :=
  c = ' ' || c = '\t' || c = '\n' || c = '\r' || c = Char.ofNat 11 || c = Char.ofNat 12

/-- Model of Python `str.strip()`: drop leading and trailing whitespace. -/
def pyStrip (s : Str) : Str :=
  ((s.dropWhile isPySpace).reverse.dropWhile isPySpace).reverse

/-- ASCII model of Python `str.upper()`: uppercase each character. -/
def pyUpper (s : Str) : Str :=
  s.map Char.toUpper

/-- Model of Python `text.split(sep)` for a one-character separator:
split a character list at every occurrence of `c`.  `[]` splits to `[[]]`,
matching Python (`"".split('\n') == ['']`). -/
def splitOnChar (c : Char) : Str → List Str
  | [] => [[]]
  | x :: xs =>
    match splitOnChar c xs with
    | [] => [[]]
    | g :: gs => if x = c then [] :: g :: gs else (x :: g) :: gs

/-- Model of the Python idiom `':' in line` + `line.split(':', 1)`:
`some (before, after)` splits at the FIRST occurrence of `c`,
`none` when `c` does not occur. -/
def splitFirst (c : Char) : Str → Option (Str × Str)
  | [] => none
  | x :: xs =>
    if x = c then some ([], xs)
    else
      match splitFirst c xs with
      | none => none
      | some kv => some (x :: kv.1, kv.2)

/-- A Python `dict` with `Str` keys and values, as an insertion-ordered
association list with unique keys. -/
abbrev Dict := List (Str × Str)

/-- Model of Python `d[k] = v`: replace the value of an existing key in
place, otherwise append the new binding at the end. -/
def dictSet (d : Dict) (k v : Str) : Dict :=
  match d with
  | [] => [(k, v)]
  | p :: rest => if p.1 = k then (k, v) :: rest else p :: dictSet rest k v

/-- Model of Python `d.get(k)` / `k in d`: first binding of `k`, if any. -/
def dictGet (d : Dict) (k : Str) : Option Str :=
  match d with
  | [] => none
  | p :: rest => if p.1 = k then some p.2 else dictGet rest k

/-- One iteration of the loop body of `parse_ai_response` (src/app.py
lines 29-34): lines without `':'` are skipped; otherwise split at the
first `':'`, canonicalize key (`strip().upper()`) and value (`strip()`),
and store `value if value else ""`. -/
def parseStep (d : Dict) (line : Str) : Dict :=
  match splitFirst ':' line with
  | none => d
  | some kv =>
    let key := pyUpper (pyStrip kv.1)
    let value := pyStrip kv.2
    dictSet d key (if value.isEmpty then [] else value)

/-- Embedding of `parse_ai_response` (src/app.py lines 25-35): split the
raw response on newlines and fold the line parser over the lines,
starting from the empty dict `results = {}`. -/
def parse_ai_response (response_text : Str) : Dict :=
  (splitOnChar '\n' response_text).foldl parseStep []

/-- The fixed ordered parameter schema of `main` (src/app.py lines 107-121). -/
def parameters : List Str :=
  [ "CYLINDER ACTION".data
  , "BORE DIAMETER".data
  , "OUTSIDE DIAMETER".data
  , "ROD DIAMETER".data
  , "STROKE LENGTH".data
  , "CLOSE LENGTH".data
  , "OPEN LENGTH".data
  , "OPERATING PRESSURE".data
  , "OPERATING TEMPERATURE".data
  , "MOUNTING".data
  , "ROD END".data
  , "FLUID".data
  , "DRAWING NUMBER".data
  ]

/-- Embedding of the schema reconciliation in `main` (src/app.py lines
143-147): the record lists, for every schema key in schema order, the
parsed value, with `""` substituted when the key is absent
(`parsed_results.get(k, "")`). This is the spec's `Normalize(T, S)`. -/
def Normalize (response_text : Str) (schema : List Str) : List (Str × Str) :=
  let parsed := parse_ai_response response_text
  schema.map (fun k => (k, (dictGet parsed k).getD []))

/-- Canonicalized key contributed by one line of the response, when the
line contains a colon (src/app.py line 32): `key.strip().upper()`. -/
def lineKey (line : Str) : Option Str :=
  (splitFirst ':' line).map (fun kv => pyUpper (pyStrip kv.1))

/-- Value stored by a line that contains a colon: the trimmed value,
with the blank-guard of src/app.py line 34 (`value if value else ""`). -/
def storedValue (line : Str) : Str :=
  match splitFirst ':' line with
  | none => []
  | some kv =>
    let value := pyStrip kv.2
    if value.isEmpty then [] else value

/-- Spec-side `Render` helper: join lines with newlines. -/
def joinLines : List Str → Str
  | [] => []
  | [l] => l
  | l :: ls => l ++ '\n' :: joinLines ls

/-- Spec-side `Render`: re-serialize a record into `KEY: value` lines,
one line per record entry, in record order. -/
def renderRecord (record : List (Str × Str)) : Str :=
  joinLines (record.map (fun p => p.1 ++ ':' :: ' ' :: p.2))

/-- Error marker tested by `main` (src/app.py line 140). -/
def apiErrMarker : Str := "❌ API Error".data

/-- Second error marker tested by `main` (src/app.py line 140). -/
def procErrMarker : Str := "❌ Processing Error".data

/-- A decoded HTTP reply: status code, whether the JSON envelope carries
a `choices` list, the message content found under it, and the text
rendering of the whole envelope (used in the API-error message). -/
structure BackendResponse where
  status_code : Nat
  hasChoices : Bool
  content : Str
  jsonText : Str
deriving DecidableEq

/-- Outcome of `requests.post` plus `response.json()` (src/app.py lines
85-86): either a decoded reply, or an exception with its message. -/
inductive TransportResult where
  | response (r : BackendResponse)
  | exception (msg : Str)
deriving DecidableEq

/-- Embedding of the result handling of `analyze_cylinder_image`
(src/app.py lines 84-94): status 200 with a `choices` envelope yields
the message content, any other reply yields the API-error text, and an
exception yields the processing-error text. -/
def analyze_cylinder_image : TransportResult → Str
  | .response r =>
    if r.status_code == 200 && r.hasChoices then r.content
    else "❌ API Error: ".data ++ r.jsonText
  | .exception e => "❌ Processing Error: ".data ++ e

/-- Helper for `occursIn`: does `p` start the string `s`? -/
def leads : Str → Str → Bool
  | [], _ => true
  | _ :: _, [] => false
  | p :: ps, s :: ss => p = s && leads ps ss

/-- Model of the Python substring test `p in s`. -/
def occursIn (p : Str) : Str → Bool
  | [] => p.isEmpty
  | c :: t => leads p (c :: t) || occursIn p t

/-- The failure test of `main` (src/app.py line 140): substring search
for either error marker in the returned text. -/
def isFailureText (result : Str) : Bool :=
  occursIn apiErrMarker result || occursIn procErrMarker result

/-- The session state surviving reruns: `st.session_state.results_df`,
absent until the first successful parse. -/
structure SessionState where
  results_df : Option (List (Str × Str))
deriving DecidableEq

/-- What the process-button branch surfaces to the user: `st.error` with
the failure text, or `st.success` after storing a new record. -/
inductive StepOutcome where
  | errorShown (msg : Str)
  | successShown
deriving DecidableEq

/-- Embedding of the process-button branch of `main` (src/app.py lines
133-148): obtain the backend result text, test it for error markers; on
failure show the error and leave `results_df` unchanged; otherwise parse,
reconcile against the schema, and store the fresh record. -/
def processDrawing (st : SessionState) (t : TransportResult) : SessionState × StepOutcome :=
  let result := analyze_cylinder_image t
  if isFailureText result then (st, .errorShown result)
  else ({ results_df := some (Normalize result parameters) }, .successShown)

/-- A transport attempt the spec calls a backend failure: an exception,
or a reply that is not status 200 with a `choices` envelope. -/
def transportFailed : TransportResult → Prop
  | .response r => ¬(r.status_code = 200 ∧ r.hasChoices = true)
  | .exception _ => True

/-- The upload formats accepted by the file uploader (src/app.py line 124). -/
inductive UploadFormat where
  | png
  | jpg
  | jpeg
deriving DecidableEq

/-- The actual MIME subtype of each accepted upload format. -/
def formatMime : UploadFormat → Str
  | .png => "png".data
  | .jpg => "jpeg".data
  | .jpeg => "jpeg".data

/-- Image bytes, each below 256. -/
abbrev Bytes := List Nat

/-- The RFC 4648 base64 alphabet. -/
def base64Table : List Char :=
  "ABCDEFGHIJKLMNOPQRSTUVWXYZabcdefghijklmnopqrstuvwxyz0123456789+/".data

/-- Character of the base64 alphabet at index `n`. -/
def b64Char (n : Nat) : Char := base64Table.getD n 'A'

/-- RFC 4648 base64 of a byte list, modelling `base64.b64encode`
(src/app.py line 23): three bytes become four alphabet characters, a
final group of one or two bytes is padded with `=`. -/
def base64Encode : Bytes → Str
  | a :: b :: c :: rest =>
    b64Char (a / 4) :: b64Char (a % 4 * 16 + b / 16) ::
      b64Char (b % 16 * 4 + c / 64) :: b64Char (c % 64) :: base64Encode rest
  | [a, b] => [b64Char (a / 4), b64Char (a % 4 * 16 + b / 16), b64Char (b % 16 * 4), '=']
  | [a] => [b64Char (a / 4), b64Char (a % 4 * 16), '=', '=']
  | [] => []

/-- Index of a character in the base64 alphabet. -/
def b64Index (c : Char) : Nat := base64Table.findIdx (fun x => x = c)

/-- Inverse of `base64Encode` on its image; used to state that the data
URI payload determines exactly the input bytes. -/
def base64Decode : Str → Bytes
  | e1 :: e2 :: e3 :: e4 :: rest =>
    if e3 = '=' then [b64Index e1 * 4 + b64Index e2 / 16]
    else if e4 = '=' then
      [b64Index e1 * 4 + b64Index e2 / 16, b64Index e2 % 16 * 16 + b64Index e3 / 4]
    else
      (b64Index e1 * 4 + b64Index e2 / 16) ::
        (b64Index e2 % 16 * 16 + b64Index e3 / 4) ::
        (b64Index e3 % 4 * 64 + b64Index e4) :: base64Decode rest
  | _ => []

/-- Embedding of `encode_image_to_base64` (src/app.py lines 22-23): the
MIME subtype in the data URI is hardcoded to `jpeg`. -/
def encode_image_to_base64 (image_bytes : Bytes) : Str :=
  "data:image/jpeg;base64,".data ++ base64Encode image_bytes

/-- The data-URI head the spec expects for a given upload format. -/
def dataURIHead (fmt : UploadFormat) : Str :=
  "data:image/".data ++ formatMime fmt ++ ";base64,".data

/-- C1: for every schema `S` and raw response text `T`, normalization is
total (it is a total function of its input) and the key column of the
resulting record is exactly `S`, in schema order, whatever `T` contains. -/
theorem normalize_keys_exact (T : Str) (S : List Str) :
    (Normalize T S).map Prod.fst = S := by
  simp only [Normalize, List.map_map]
  exact List.map_id'' (fun x => rfl) S

/-- Reading a key after a `dict` assignment: the assigned key sees the
new value, every other key is unaffected. -/
theorem dictGet_dictSet (d : Dict) (k v k' : Str) :
    dictGet (dictSet d k v) k' = if k' = k then some v else dictGet d k' := by
  induction d with
  | nil =>
    by_cases h : k' = k
    · simp [dictSet, dictGet, h]
    · simp [dictSet, dictGet, h, Ne.symm h]
  | cons p rest ih =>
    by_cases hp : p.1 = k
    · by_cases h : k' = k
      · simp [dictSet, dictGet, hp, h]
      · have hpk : p.1 ≠ k' := fun hh => h (hh.symm.trans hp)
        simp [dictSet, dictGet, hp, h, Ne.symm h, hpk]
    · simp only [dictSet, if_neg hp, dictGet, ih]
      by_cases h : k' = k
      · simp [h, hp]
      · simp [h]

/-- A line whose canonicalized key is not `k` leaves the binding of `k`
unchanged. -/
theorem parseStep_other (d : Dict) (line k : Str) (h : lineKey line ≠ some k) :
    dictGet (parseStep d line) k = dictGet d k := by
  unfold lineKey at h
  unfold parseStep
  cases hsf : splitFirst ':' line with
  | none => rfl
  | some kv =>
    rw [hsf] at h
    simp only [Option.map_some', ne_eq, Option.some.injEq] at h
    have hne : k ≠ pyUpper (pyStrip kv.1) := fun hh => h hh.symm
    simp only [hsf, dictGet_dictSet, if_neg hne]

/-- A line whose canonicalized key is `k` rebinds `k` to the value this
line carries. -/
theorem parseStep_hit (d : Dict) (line k : Str) (h : lineKey line = some k) :
    dictGet (parseStep d line) k = some (storedValue line) := by
  unfold lineKey at h
  unfold parseStep storedValue
  cases hsf : splitFirst ':' line with
  | none => rw [hsf] at h; cases h
  | some kv =>
    rw [hsf] at h
    simp only [Option.map_some', Option.some.injEq] at h
    simp only [hsf, dictGet_dictSet, if_pos h.symm]

/-- Folding the line parser over lines none of which carries key `k`
leaves the binding of `k` unchanged. -/
theorem foldl_parseStep_other (L : List Str) (d : Dict) (k : Str)
    (h : ∀ l ∈ L, lineKey l ≠ some k) :
    dictGet (L.foldl parseStep d) k = dictGet d k := by
  induction L generalizing d with
  | nil => rfl
  | cons a L ih =>
    simp only [List.foldl_cons]
    rw [ih _ (fun l hl => h l (List.mem_cons_of_mem a hl)),
        parseStep_other d a k (h a (List.mem_cons_self a L))]

/-- Looking up a key of the schema in the reconciled record. -/
theorem dictGet_record_mem (S : List Str) (f : Str → Str) (k : Str) (hk : k ∈ S) :
    dictGet (S.map (fun x => (x, f x))) k = some (f k) := by
  induction S with
  | nil => cases hk
  | cons a S ih =>
    by_cases ha : a = k
    · subst ha
      simp [dictGet]
    · have hk' : k ∈ S := by
        rcases List.mem_cons.mp hk with h | h
        · exact absurd h.symm ha
        · exact h
      simp [List.map_cons, dictGet, ha, ih hk']

/-- Looking up a key outside the schema in the reconciled record. -/
theorem dictGet_record_not_mem (S : List Str) (f : Str → Str) (k : Str) (hk : k ∉ S) :
    dictGet (S.map (fun x => (x, f x))) k = none := by
  induction S with
  | nil => rfl
  | cons a S ih =>
    have ha : a ≠ k := fun h => hk (h ▸ List.mem_cons_self a S)
    have hk' : k ∉ S := fun h => hk (List.mem_cons_of_mem a h)
    simp [List.map_cons, dictGet, ha, ih hk']

/-- Splitting at the first occurrence of `c`: when `c` does not occur in
`k`, the split of `k ++ c :: v` is exactly `(k, v)`. -/
theorem splitFirst_append (c : Char) (k v : Str) (hk : c ∉ k) :
    splitFirst c (k ++ c :: v) = some (k, v) := by
  induction k with
  | nil => simp [splitFirst]
  | cons x xs ih =>
    have hx : x ≠ c := fun h => hk (h ▸ List.mem_cons_self x xs)
    simp [splitFirst, hx, ih (fun h => hk (List.mem_cons_of_mem x h))]

/-- C7: when several lines of the raw response share the same
canonicalized key, the last such line determines the stored value: once
the line split is `l1 ++ a :: l2` with `a` carrying key `k` and no line
of `l2` carrying `k`, the parsed value of `k` is the value of `a`. -/
theorem duplicate_key_last_wins (T k : Str) (l1 l2 : List Str) (a : Str)
    (hsplit : splitOnChar '\n' T = l1 ++ a :: l2)
    (hkey : lineKey a = some k)
    (hafter : ∀ l ∈ l2, lineKey l ≠ some k) :
    dictGet (parse_ai_response T) k = some (storedValue a) := by
  unfold parse_ai_response
  rw [hsplit, List.foldl_append, List.foldl_cons,
      foldl_parseStep_other l2 _ k hafter, parseStep_hit _ a k hkey]

/-- Witness for C7 at the spec's example: `BORE DIAMETER: 10 MM`
followed by `BORE DIAMETER: 12 MM` parses to `12 MM`. -/
theorem duplicate_key_last_wins_witness :
    dictGet (parse_ai_response "BORE DIAMETER: 10 MM\nBORE DIAMETER: 12 MM".data)
      "BORE DIAMETER".data = some "12 MM".data := by
  have h := duplicate_key_last_wins
    "BORE DIAMETER: 10 MM\nBORE DIAMETER: 12 MM".data
    "BORE DIAMETER".data
    ["BORE DIAMETER: 10 MM".data] [] "BORE DIAMETER: 12 MM".data
    (by decide) (by decide) (by simp)
  rw [h]
  decide

/-- C5: a schema key that no line of the raw text carries, or whose
parsed value trims to blank, resolves to the missing sentinel `""` in
the record — never an omitted entry. -/
theorem missing_key_gets_sentinel (T : Str) (S : List Str) (k : Str) (hk : k ∈ S)
    (habsent : (∀ l ∈ splitOnChar '\n' T, lineKey l ≠ some k) ∨
               dictGet (parse_ai_response T) k = some []) :
    dictGet (Normalize T S) k = some [] := by
  have hval : (dictGet (parse_ai_response T) k).getD [] = [] := by
    rcases habsent with h | h
    · have hnone : dictGet (parse_ai_response T) k = none := by
        unfold parse_ai_response
        rw [foldl_parseStep_other _ [] k h]
        rfl
      rw [hnone]
      rfl
    · rw [h]
      rfl
  unfold Normalize
  rw [dictGet_record_mem S _ k hk, hval]

/-- Witness for C5: `MOUNTING` is in the schema, absent from the text,
and resolves to the sentinel. -/
theorem missing_key_gets_sentinel_witness :
    ("MOUNTING".data ∈ parameters) ∧
    dictGet (Normalize "BORE DIAMETER: 10".data parameters) "MOUNTING".data = some [] :=
  ⟨by decide, missing_key_gets_sentinel _ parameters _ (by decide) (Or.inl (by decide))⟩

/-- C10: the missing sentinel is the empty string, with no other
configurable behavior in the code: an absent or blank schema key maps to
`""` in the record. -/
theorem missing_sentinel_is_empty_string (T : Str) (S : List Str) (k : Str) (hk : k ∈ S)
    (habsent : dictGet (parse_ai_response T) k = none ∨
               dictGet (parse_ai_response T) k = some "".data) :
    dictGet (Normalize T S) k = some "".data := by
  have hval : (dictGet (parse_ai_response T) k).getD [] = "".data := by
    rcases habsent with h | h <;> rw [h] <;> rfl
  unfold Normalize
  rw [dictGet_record_mem S _ k hk, hval]

/-- Witness for C10: a blank-valued `MOUNTING:` line resolves to `""`. -/
theorem missing_sentinel_is_empty_string_witness :
    dictGet (Normalize "MOUNTING:   \nBORE DIAMETER: 10".data parameters) "MOUNTING".data =
      some "".data :=
  missing_sentinel_is_empty_string _ parameters _ (by decide) (Or.inr (by decide))

/-- C8: a parsed key that is not a canonical schema name never appears
in the resulting record. -/
theorem unknown_key_discarded (T : Str) (S : List Str) (k : Str) (hk : k ∉ S) :
    dictGet (Normalize T S) k = none := by
  unfold Normalize
  exact dictGet_record_not_mem S _ k hk

/-- Witness for C8 at the spec's example: `NOTES: looks fine` leaves no
`NOTES` key in the record. -/
theorem unknown_key_discarded_witness :
    ("NOTES".data ∉ parameters) ∧
    dictGet (Normalize "NOTES: looks fine".data parameters) "NOTES".data = none :=
  ⟨by decide, unknown_key_discarded _ parameters _ (by decide)⟩

/-- C6: a line splits into key and value at the first colon only, so
values keep any further colons; in particular `DRAWING NUMBER: AB-123:45`
yields the value `AB-123:45` in the record. -/
theorem first_colon_split (k v : Str) (hk : ':' ∉ k) :
    splitFirst ':' (k ++ ':' :: v) = some (k, v) ∧
    dictGet (Normalize "DRAWING NUMBER: AB-123:45".data parameters) "DRAWING NUMBER".data =
      some "AB-123:45".data :=
  ⟨splitFirst_append ':' k v hk, by decide⟩

/-- Witness for C6 at the spec's example line. -/
theorem first_colon_split_witness :
    (':' ∉ "DRAWING NUMBER".data) ∧
    splitFirst ':' ("DRAWING NUMBER".data ++ ':' :: " AB-123:45".data) =
      some ("DRAWING NUMBER".data, " AB-123:45".data) :=
  ⟨by decide, (first_colon_split "DRAWING NUMBER".data " AB-123:45".data (by decide)).1⟩

/-- A string starts with itself followed by anything. -/
theorem leads_append_self (p rest : Str) : leads p (p ++ rest) = true := by
  induction p with
  | nil => rfl
  | cons c ps ih => simp [leads, ih]

/-- A string occurs as a substring of itself followed by anything. -/
theorem occursIn_append_self (p rest : Str) : occursIn p (p ++ rest) = true := by
  cases p with
  | nil => cases rest <;> simp [occursIn, leads]
  | cons c ps =>
    simp only [List.cons_append, occursIn, Bool.or_eq_true]
    exact Or.inl (leads_append_self (c :: ps) rest)

/-- The API-error text produced by `analyze_cylinder_image` always
passes the failure test of `main`. -/
theorem isFailureText_api (x : Str) : isFailureText ("❌ API Error: ".data ++ x) = true := by
  have h : "❌ API Error: ".data = apiErrMarker ++ ": ".data := by decide
  rw [isFailureText, h, List.append_assoc, occursIn_append_self]
  rfl

/-- The processing-error text produced by `analyze_cylinder_image`
always passes the failure test of `main`. -/
theorem isFailureText_proc (x : Str) : isFailureText ("❌ Processing Error: ".data ++ x) = true := by
  have h : "❌ Processing Error: ".data = procErrMarker ++ ": ".data := by decide
  rw [isFailureText, h, List.append_assoc, occursIn_append_self]
  simp

/-- C2: a failed backend call (an exception, a non-success status, or an
envelope without `choices`) short-circuits normalization: the process
step returns the session state unchanged — the previously stored record
survives — together with an error outcome, which is a different
constructor from any success outcome carrying a parsed record. -/
theorem backend_failure_short_circuits (st : SessionState) (t : TransportResult)
    (h : transportFailed t) :
    processDrawing st t = (st, .errorShown (analyze_cylinder_image t)) := by
  cases t with
  | exception e =>
    have hfail : isFailureText (analyze_cylinder_image (TransportResult.exception e)) = true :=
      isFailureText_proc e
    simp only [processDrawing, hfail, if_true]
  | response r =>
    have h' : ¬(r.status_code = 200 ∧ r.hasChoices = true) := h
    have hcond : (r.status_code == 200 && r.hasChoices) = false := by
      cases hb : (r.status_code == 200 && r.hasChoices) with
      | false => rfl
      | true =>
        simp only [Bool.and_eq_true, beq_iff_eq] at hb
        exact absurd hb h'
    have hfail : isFailureText (analyze_cylinder_image (TransportResult.response r)) = true := by
      show isFailureText (if r.status_code == 200 && r.hasChoices then r.content
        else "❌ API Error: ".data ++ r.jsonText) = true
      rw [hcond]
      simpa using isFailureText_api r.jsonText
    simp only [processDrawing, hfail, if_true]

/-- Witness for C2: a 500 reply leaves the stored record untouched and
shows the error text. -/
theorem backend_failure_short_circuits_witness :
    transportFailed (.response ⟨500, false, [], "rate limited".data⟩) ∧
    processDrawing ⟨some (Normalize "BORE DIAMETER: 10 MM".data parameters)⟩
        (.response ⟨500, false, [], "rate limited".data⟩) =
      (⟨some (Normalize "BORE DIAMETER: 10 MM".data parameters)⟩,
        .errorShown (analyze_cylinder_image (.response ⟨500, false, [], "rate limited".data⟩))) :=
  ⟨by simp [transportFailed],
    backend_failure_short_circuits _ _ (by simp [transportFailed])⟩

/-- C9: failure detection is a substring test on the returned text, so
even a genuine answer (status 200 with a `choices` envelope) whose
content happens to contain an error marker is treated as a backend
failure: it is shown as an error, the stored record is unchanged, and
the content is never parsed. -/
theorem marker_text_treated_as_failure (st : SessionState) (r : BackendResponse)
    (hs : r.status_code = 200) (hc : r.hasChoices = true)
    (hmark : isFailureText r.content = true) :
    processDrawing st (.response r) = (st, .errorShown r.content) := by
  have hres : analyze_cylinder_image (.response r) = r.content := by
    unfold analyze_cylinder_image
    simp [hs, hc]
  simp only [processDrawing, hres, hmark, if_true]

/-- Witness for C9: a model answer that mentions `❌ API Error` is
swallowed by the failure test. -/
theorem marker_text_treated_as_failure_witness :
    isFailureText "The stamp reads ❌ API Error here".data = true ∧
    processDrawing ⟨none⟩
        (.response ⟨200, true, "The stamp reads ❌ API Error here".data, []⟩) =
      (⟨none⟩, .errorShown "The stamp reads ❌ API Error here".data) :=
  ⟨by decide, marker_text_treated_as_failure _ _ rfl rfl (by decide)⟩

/-- Each base64 alphabet character decodes back to its index. -/
theorem b64Index_b64Char : ∀ n < 64, b64Index (b64Char n) = n := by decide

/-- No base64 alphabet character is the padding character `=`. -/
theorem b64Char_ne_pad : ∀ n < 64, ¬(b64Char n = '=') := by decide

/-- Decoding inverts encoding on byte lists: the base64 payload
determines exactly the input bytes. -/
theorem base64Decode_base64Encode : ∀ bs : Bytes, (∀ b ∈ bs, b < 256) →
    base64Decode (base64Encode bs) = bs
  | [], _ => rfl
  | [a], h => by
    have ha : a < 256 := h a (by simp)
    have h1 : a / 4 < 64 := by omega
    have h2 : a % 4 * 16 < 64 := by omega
    show base64Decode [b64Char (a / 4), b64Char (a % 4 * 16), '=', '='] = [a]
    rw [show base64Decode [b64Char (a / 4), b64Char (a % 4 * 16), '=', '='] =
      [b64Index (b64Char (a / 4)) * 4 + b64Index (b64Char (a % 4 * 16)) / 16] from rfl]
    rw [b64Index_b64Char _ h1, b64Index_b64Char _ h2]
    congr 1
    omega
  | [a, b], h => by
    have ha : a < 256 := h a (by simp)
    have hb : b < 256 := h b (by simp)
    have h1 : a / 4 < 64 := by omega
    have h2 : a % 4 * 16 + b / 16 < 64 := by omega
    have h3 : b % 16 * 4 < 64 := by omega
    show base64Decode [b64Char (a / 4), b64Char (a % 4 * 16 + b / 16),
      b64Char (b % 16 * 4), '='] = [a, b]
    unfold base64Decode
    rw [if_neg (b64Char_ne_pad _ h3), if_pos rfl,
      b64Index_b64Char _ h1, b64Index_b64Char _ h2, b64Index_b64Char _ h3]
    refine List.ext_getElem (by simp) ?_
    intro i hi _
    match i, hi with
    | 0, _ => simp; omega
    | 1, _ => simp; omega
  | a :: b :: c :: d :: rest, h => by
    have ha : a < 256 := h a (by simp)
    have hb : b < 256 := h b (by simp)
    have hc : c < 256 := h c (by simp)
    have h1 : a / 4 < 64 := by omega
    have h2 : a % 4 * 16 + b / 16 < 64 := by omega
    have h3 : b % 16 * 4 + c / 64 < 64 := by omega
    have h4 : c % 64 < 64 := by omega
    have ih := base64Decode_base64Encode (d :: rest) (fun x hx => h x (by simp [hx]))
    show base64Decode (b64Char (a / 4) :: b64Char (a % 4 * 16 + b / 16) ::
      b64Char (b % 16 * 4 + c / 64) :: b64Char (c % 64) :: base64Encode (d :: rest)) =
        a :: b :: c :: d :: rest
    unfold base64Decode
    rw [if_neg (b64Char_ne_pad _ h3), if_neg (b64Char_ne_pad _ h4),
      b64Index_b64Char _ h1, b64Index_b64Char _ h2, b64Index_b64Char _ h3,
      b64Index_b64Char _ h4, ih]
    refine List.ext_getElem (by simp) ?_
    intro i hi _
    match i, hi with
    | 0, _ => simp; omega
    | 1, _ => simp; omega
    | 2, _ => simp; omega
    | Nat.succ (Nat.succ (Nat.succ j)), _ => simp
  | a :: b :: c :: [], h => by
    have ha : a < 256 := h a (by simp)
    have hb : b < 256 := h b (by simp)
    have hc : c < 256 := h c (by simp)
    have h1 : a / 4 < 64 := by omega
    have h2 : a % 4 * 16 + b / 16 < 64 := by omega
    have h3 : b % 16 * 4 + c / 64 < 64 := by omega
    have h4 : c % 64 < 64 := by omega
    show base64Decode [b64Char (a / 4), b64Char (a % 4 * 16 + b / 16),
      b64Char (b % 16 * 4 + c / 64), b64Char (c % 64)] = [a, b, c]
    unfold base64Decode
    rw [if_neg (b64Char_ne_pad _ h3), if_neg (b64Char_ne_pad _ h4),
      b64Index_b64Char _ h1, b64Index_b64Char _ h2, b64Index_b64Char _ h3,
      b64Index_b64Char _ h4, show base64Decode [] = [] from rfl]
    refine List.ext_getElem (by simp) ?_
    intro i hi _
    match i, hi with
    | 0, _ => simp; omega
    | 1, _ => simp; omega
    | 2, _ => simp; omega

/-- C4 fails as stated: for a PNG upload (here the four PNG signature
bytes), the request's image reference does not begin with the
format-matching head `data:image/png;base64,` — the code hardcodes the
JPEG MIME subtype for every accepted format. -/
theorem png_mime_head_absent :
    leads (dataURIHead .png) (encode_image_to_base64 [137, 80, 78, 71]) = false := by
  decide

/-- C4 amended: for every accepted input, the data URI starts with the
fixed head `data:image/jpeg;base64,` — the MIME subtype is always
`jpeg`, without regard to the input's actual format — and the payload
after the head is the base64 encoding of exactly the input bytes (it
decodes back to them). -/
theorem data_uri_hardcoded_jpeg (image_bytes : Bytes) (h : ∀ b ∈ image_bytes, b < 256) :
    encode_image_to_base64 image_bytes = dataURIHead .jpeg ++ base64Encode image_bytes ∧
    leads (dataURIHead .jpeg) (encode_image_to_base64 image_bytes) = true ∧
    base64Decode (base64Encode image_bytes) = image_bytes := by
  have hhead : "data:image/jpeg;base64,".data = dataURIHead .jpeg := by decide
  refine ⟨?_, ?_, base64Decode_base64Encode image_bytes h⟩
  · rw [encode_image_to_base64, hhead]
  · rw [encode_image_to_base64, hhead]
    exact leads_append_self _ _

/-- Witness for the amended C4 at the PNG signature bytes. -/
theorem data_uri_hardcoded_jpeg_witness :
    (∀ b ∈ ([137, 80, 78, 71] : Bytes), b < 256) ∧
    encode_image_to_base64 [137, 80, 78, 71] =
      dataURIHead .jpeg ++ base64Encode [137, 80, 78, 71] ∧
    base64Decode (base64Encode [137, 80, 78, 71]) = [137, 80, 78, 71] :=
  ⟨by decide, (data_uri_hardcoded_jpeg _ (by decide)).1,
    (data_uri_hardcoded_jpeg [137, 80, 78, 71] (by decide)).2.2⟩

/-- Dropping a prefix twice is the same as dropping it once. -/
theorem dropWhile_dropWhile_eq (p : Char → Bool) (l : Str) :
    (l.dropWhile p).dropWhile p = l.dropWhile p := by
  induction l with
  | nil => rfl
  | cons c t ih =>
    by_cases h : p c = true
    · simp [List.dropWhile_cons, h, ih]
    · simp [List.dropWhile_cons, h]

/-- A prefix of a list that `dropWhile` leaves unchanged is itself left
unchanged by `dropWhile`. -/
theorem dropWhile_eq_self_of_append (p : Char → Bool) (a : Str)
    (hfix : a.dropWhile p = a) (x r : Str) (hdecomp : a = x ++ r) :
    x.dropWhile p = x := by
  cases x with
  | nil => rfl
  | cons h t =>
    have hp : p h = false := by
      cases hph : p h with
      | false => rfl
      | true =>
        rw [hdecomp] at hfix
        simp only [List.cons_append, List.dropWhile_cons, hph, if_true] at hfix
        have hlen := congrArg List.length hfix
        have hle := (List.dropWhile_sublist (l := t ++ r) p).length_le
        simp only [List.length_cons, List.length_append] at hlen hle
        omega
    simp [List.dropWhile_cons, hp]

/-- Stripping is idempotent. -/
theorem pyStrip_idem (l : Str) : pyStrip (pyStrip l) = pyStrip l := by
  unfold pyStrip
  have hAfix : (l.dropWhile isPySpace).dropWhile isPySpace = l.dropWhile isPySpace :=
    dropWhile_dropWhile_eq _ l
  have hdecomp : l.dropWhile isPySpace =
      ((l.dropWhile isPySpace).reverse.dropWhile isPySpace).reverse ++
        ((l.dropWhile isPySpace).reverse.takeWhile isPySpace).reverse := by
    calc l.dropWhile isPySpace
        = (l.dropWhile isPySpace).reverse.reverse := (List.reverse_reverse _).symm
      _ = ((l.dropWhile isPySpace).reverse.takeWhile isPySpace ++
            (l.dropWhile isPySpace).reverse.dropWhile isPySpace).reverse := by
            rw [List.takeWhile_append_dropWhile]
      _ = ((l.dropWhile isPySpace).reverse.dropWhile isPySpace).reverse ++
            ((l.dropWhile isPySpace).reverse.takeWhile isPySpace).reverse := by
            rw [List.reverse_append]
  have h1 : (((l.dropWhile isPySpace).reverse.dropWhile isPySpace).reverse).dropWhile
      isPySpace = ((l.dropWhile isPySpace).reverse.dropWhile isPySpace).reverse :=
    dropWhile_eq_self_of_append _ _ hAfix _ _ hdecomp
  rw [h1, List.reverse_reverse, dropWhile_dropWhile_eq]

/-- Members of a `dropWhile` result are members of the original list. -/
theorem mem_of_mem_dropWhile (p : Char → Bool) (l : Str) (x : Char)
    (h : x ∈ l.dropWhile p) : x ∈ l := by
  induction l with
  | nil => exact h
  | cons c t ih =>
    rw [List.dropWhile_cons] at h
    by_cases hc : p c = true
    · rw [if_pos hc] at h
      exact List.mem_cons_of_mem c (ih h)
    · rw [if_neg hc] at h
      exact h

/-- Members of a stripped string are members of the original string. -/
theorem mem_of_mem_pyStrip (x : Char) (l : Str) (h : x ∈ pyStrip l) : x ∈ l := by
  unfold pyStrip at h
  rw [List.mem_reverse] at h
  have h1 := mem_of_mem_dropWhile _ _ _ h
  rw [List.mem_reverse] at h1
  exact mem_of_mem_dropWhile _ _ _ h1

/-- Stripping swallows a leading space. -/
theorem pyStrip_cons_space (v : Str) : pyStrip (' ' :: v) = pyStrip v := by
  unfold pyStrip
  rw [show (' ' :: v).dropWhile isPySpace = v.dropWhile isPySpace from by
    rw [List.dropWhile_cons, if_pos (show isPySpace ' ' = true from rfl)]]

/-- A successful first-colon split decomposes the line: the key part is
separator-free and the line is key ++ separator ++ value. -/
theorem splitFirst_eq_some (c : Char) (l : Str) (kv : Str × Str)
    (h : splitFirst c l = some kv) : l = kv.1 ++ c :: kv.2 ∧ c ∉ kv.1 := by
  induction l generalizing kv with
  | nil => cases h
  | cons x xs ih =>
    unfold splitFirst at h
    by_cases hx : x = c
    · rw [if_pos hx] at h
      injection h with h
      subst h
      subst hx
      exact ⟨rfl, by simp⟩
    · rw [if_neg hx] at h
      cases hsf : splitFirst c xs with
      | none => rw [hsf] at h; cases h
      | some kv' =>
        rw [hsf] at h
        injection h with h
        subst h
        obtain ⟨hdec, hmem⟩ := ih kv' hsf
        constructor
        · rw [List.cons_append, ← hdec]
        · intro hm
          rcases List.mem_cons.mp hm with hm | hm
          · exact hx hm.symm
          · exact hmem hm

/-- Splitting never yields an empty list of pieces. -/
theorem splitOnChar_ne_nil (c : Char) (l : Str) : splitOnChar c l ≠ [] := by
  cases l with
  | nil => simp [splitOnChar]
  | cons x xs =>
    cases hsp : splitOnChar c xs with
    | nil => simp [splitOnChar, hsp]
    | cons g gs =>
      simp only [splitOnChar, hsp]
      by_cases hx : x = c <;> simp [hx]

/-- No piece produced by splitting on `c` contains `c`. -/
theorem splitOnChar_mem_not (c : Char) (l : Str) :
    ∀ l' ∈ splitOnChar c l, c ∉ l' := by
  induction l with
  | nil =>
    intro l' hl'
    simp only [splitOnChar, List.mem_singleton] at hl'
    subst hl'
    simp
  | cons x xs ih =>
    intro l' hl'
    cases hsp : splitOnChar c xs with
    | nil => exact absurd hsp (splitOnChar_ne_nil c xs)
    | cons g gs =>
      simp only [splitOnChar, hsp] at hl'
      by_cases hx : x = c
      · rw [if_pos hx] at hl'
        rcases List.mem_cons.mp hl' with h | h
        · subst h; simp
        · exact ih l' (hsp ▸ h)
      · rw [if_neg hx] at hl'
        rcases List.mem_cons.mp hl' with h | h
        · subst h
          intro hm
          rcases List.mem_cons.mp hm with hm | hm
          · exact hx hm.symm
          · exact ih g (hsp ▸ List.mem_cons_self g gs) hm
        · exact ih l' (hsp ▸ List.mem_cons_of_mem g h)

/-- Splitting a `c`-free string yields that single piece. -/
theorem splitOnChar_of_not_mem (c : Char) (l : Str) (h : c ∉ l) :
    splitOnChar c l = [l] := by
  induction l with
  | nil => rfl
  | cons x xs ih =>
    have hx : x ≠ c := fun hh => h (hh ▸ List.mem_cons_self x xs)
    have hxs : c ∉ xs := fun hh => h (List.mem_cons_of_mem x hh)
    simp [splitOnChar, ih hxs, hx]

/-- Splitting distributes over a separator that follows a `c`-free
piece. -/
theorem splitOnChar_append (c : Char) (l rest : Str) (h : c ∉ l) :
    splitOnChar c (l ++ c :: rest) = l :: splitOnChar c rest := by
  induction l with
  | nil =>
    cases hsp : splitOnChar c rest with
    | nil => exact absurd hsp (splitOnChar_ne_nil c rest)
    | cons g gs => simp [splitOnChar, hsp]
  | cons x xs ih =>
    have hx : x ≠ c := fun hh => h (hh ▸ List.mem_cons_self x xs)
    have hxs : c ∉ xs := fun hh => h (List.mem_cons_of_mem x hh)
    simp [splitOnChar, ih hxs, hx]

/-- Joining newline-free lines and re-splitting recovers the lines. -/
theorem splitOnChar_joinLines (L : List Str) (hL : L ≠ [])
    (h : ∀ l ∈ L, '\n' ∉ l) : splitOnChar '\n' (joinLines L) = L := by
  induction L with
  | nil => exact absurd rfl hL
  | cons a L ih =>
    cases L with
    | nil =>
      show splitOnChar '\n' (joinLines [a]) = [a]
      rw [show joinLines [a] = a from rfl]
      exact splitOnChar_of_not_mem '\n' a (h a (List.mem_cons_self a []))
    | cons b L' =>
      rw [show joinLines (a :: b :: L') = a ++ '\n' :: joinLines (b :: L') from rfl]
      rw [splitOnChar_append '\n' a _ (h a (List.mem_cons_self _ _)),
        ih (by simp) (fun l hl => h l (List.mem_cons_of_mem a hl))]

/-- A property of values preserved by a `dict` assignment. -/
theorem dictSet_vals (P : Str → Prop) (d : Dict) (hd : ∀ p ∈ d, P p.2) (k v : Str)
    (hv : P v) : ∀ p ∈ dictSet d k v, P p.2 := by
  induction d with
  | nil =>
    intro p hp
    simp only [dictSet, List.mem_singleton] at hp
    subst hp
    exact hv
  | cons q rest ih =>
    intro p hp
    simp only [dictSet] at hp
    by_cases hq : q.1 = k
    · rw [if_pos hq] at hp
      rcases List.mem_cons.mp hp with h | h
      · subst h; exact hv
      · exact hd p (List.mem_cons_of_mem q h)
    · rw [if_neg hq] at hp
      rcases List.mem_cons.mp hp with h | h
      · exact h ▸ hd q (List.mem_cons_self q rest)
      · exact ih (fun x hx => hd x (List.mem_cons_of_mem q hx)) p h

/-- A successful lookup returns a value with any property all stored
values have. -/
theorem dictGet_vals (P : Str → Prop) (d : Dict) (hd : ∀ p ∈ d, P p.2) (k v : Str)
    (h : dictGet d k = some v) : P v := by
  induction d with
  | nil => cases h
  | cons p rest ih =>
    simp only [dictGet] at h
    by_cases hp : p.1 = k
    · rw [if_pos hp] at h
      injection h with h
      exact h ▸ hd p (List.mem_cons_self p rest)
    · rw [if_neg hp] at h
      exact ih (fun x hx => hd x (List.mem_cons_of_mem p hx)) h

/-- One parse step keeps every stored value strip-stable and
newline-free, provided the line itself is newline-free. -/
theorem parseStep_vals (d : Dict) (line : Str) (hline : '\n' ∉ line)
    (hd : ∀ p ∈ d, pyStrip p.2 = p.2 ∧ '\n' ∉ p.2) :
    ∀ p ∈ parseStep d line, pyStrip p.2 = p.2 ∧ '\n' ∉ p.2 := by
  unfold parseStep
  cases hsf : splitFirst ':' line with
  | none => exact hd
  | some kv =>
    obtain ⟨hdec, -⟩ := splitFirst_eq_some ':' line kv hsf
    have hv2 : '\n' ∉ kv.2 := fun hm =>
      hline (hdec ▸ List.mem_append_right kv.1 (List.mem_cons_of_mem ':' hm))
    show ∀ p ∈ dictSet d (pyUpper (pyStrip kv.1))
        (if (pyStrip kv.2).isEmpty then [] else pyStrip kv.2),
      pyStrip p.2 = p.2 ∧ '\n' ∉ p.2
    refine dictSet_vals (fun v => pyStrip v = v ∧ '\n' ∉ v) d hd _ _ ?_
    by_cases he : (pyStrip kv.2).isEmpty = true
    · rw [if_pos he]
      exact ⟨rfl, by simp⟩
    · rw [if_neg he]
      exact ⟨pyStrip_idem kv.2, fun hm => hv2 (mem_of_mem_pyStrip _ _ hm)⟩

/-- The parse fold keeps every stored value strip-stable and
newline-free. -/
theorem foldl_parseStep_vals (L : List Str) (hL : ∀ l ∈ L, '\n' ∉ l) (d : Dict)
    (hd : ∀ p ∈ d, pyStrip p.2 = p.2 ∧ '\n' ∉ p.2) :
    ∀ p ∈ L.foldl parseStep d, pyStrip p.2 = p.2 ∧ '\n' ∉ p.2 := by
  induction L generalizing d with
  | nil => exact hd
  | cons a L ih =>
    simp only [List.foldl_cons]
    exact ih (fun l hl => hL l (List.mem_cons_of_mem a hl)) _
      (parseStep_vals d a (hL a (List.mem_cons_self a L)) hd)

/-- Every value stored by the response parser is strip-stable and
newline-free. -/
theorem parse_ai_response_vals (T : Str) :
    ∀ p ∈ parse_ai_response T, pyStrip p.2 = p.2 ∧ '\n' ∉ p.2 := by
  unfold parse_ai_response
  exact foldl_parseStep_vals _ (splitOnChar_mem_not '\n' T) [] (by simp)

/-- Parsing one rendered record line is a `dict` assignment of the
rendered pair, when the key is canonical and the value strip-stable. -/
theorem parseStep_render_line (d : Dict) (k v : Str)
    (hk : ':' ∉ k) (hcanon : pyUpper (pyStrip k) = k) (hv : pyStrip v = v) :
    parseStep d (k ++ ':' :: ' ' :: v) = dictSet d k v := by
  unfold parseStep
  rw [splitFirst_append ':' k (' ' :: v) hk]
  show dictSet d (pyUpper (pyStrip k))
      (if (pyStrip (' ' :: v)).isEmpty then [] else pyStrip (' ' :: v)) = dictSet d k v
  rw [pyStrip_cons_space, hv, hcanon]
  cases v <;> rfl

/-- Two folds agree when the step functions agree on the traversed
elements. -/
theorem foldl_congr_mem {α β : Type} (l : List β) (g h : α → β → α) (b : α)
    (H : ∀ a, ∀ x ∈ l, g a x = h a x) : l.foldl g b = l.foldl h b := by
  induction l generalizing b with
  | nil => rfl
  | cons x xs ih =>
    simp only [List.foldl_cons]
    rw [H b x (List.mem_cons_self x xs)]
    exact ih _ (fun a y hy => H a y (List.mem_cons_of_mem x hy))

/-- Folding assignments `x ↦ f x` over a list: afterwards every listed
key reads `f k`, every other key is untouched. -/
theorem foldl_dictSet_get (S : List Str) (f : Str → Str) (d : Dict) (k : Str) :
    dictGet (S.foldl (fun d x => dictSet d x (f x)) d) k =
      if k ∈ S then some (f k) else dictGet d k := by
  induction S generalizing d with
  | nil => simp
  | cons a S ih =>
    simp only [List.foldl_cons, ih, dictGet_dictSet]
    by_cases hk : k ∈ S
    · simp [hk, List.mem_cons]
    · by_cases hka : k = a
      · simp [hk, hka, List.mem_cons]
      · simp [hk, hka, List.mem_cons]

/-- Unfolding of `Normalize` as a record-building map. -/
theorem Normalize_eq (T : Str) (S : List Str) :
    Normalize T S = S.map (fun k => (k, (dictGet (parse_ai_response T) k).getD [])) := rfl

/-- C3 amended: re-serializing a record to `KEY: value` lines and
normalizing again reproduces the record, for every raw text and every
schema whose keys are canonical — trimmed, uppercase, containing neither
a colon nor a newline (as all keys of the fixed parameter schema are).
Arbitrary schemas can break the round trip, see the counterexample. -/
theorem normalize_render_roundtrip (T : Str) (S : List Str)
    (hS : ∀ k ∈ S, pyUpper (pyStrip k) = k ∧ ':' ∉ k ∧ '\n' ∉ k) :
    Normalize (renderRecord (Normalize T S)) S = Normalize T S := by
  cases S with
  | nil => rfl
  | cons s0 S' =>
    set S := s0 :: S' with hSdef
    set f : Str → Str := fun x => (dictGet (parse_ai_response T) x).getD [] with hf
    have hfv : ∀ x, pyStrip (f x) = f x ∧ '\n' ∉ f x := by
      intro x
      show pyStrip ((dictGet (parse_ai_response T) x).getD []) =
          (dictGet (parse_ai_response T) x).getD [] ∧
        '\n' ∉ (dictGet (parse_ai_response T) x).getD []
      cases hget : dictGet (parse_ai_response T) x with
      | none => exact ⟨rfl, by simp⟩
      | some v =>
        simp only [Option.getD_some]
        exact dictGet_vals (fun v => pyStrip v = v ∧ '\n' ∉ v) _
          (parse_ai_response_vals T) x v hget
    have hNTS : Normalize T S = S.map (fun x => (x, f x)) := rfl
    have hlines : (Normalize T S).map (fun p => p.1 ++ ':' :: ' ' :: p.2) =
        S.map (fun x => x ++ ':' :: ' ' :: f x) := by
      rw [hNTS, List.map_map]
      rfl
    have hlines_nn : ∀ l ∈ S.map (fun x => x ++ ':' :: ' ' :: f x), '\n' ∉ l := by
      intro l hl
      rcases List.mem_map.mp hl with ⟨x, hx, rfl⟩
      intro hm
      rcases List.mem_append.mp hm with hm | hm
      · exact (hS x hx).2.2 hm
      · rcases List.mem_cons.mp hm with hm | hm
        · exact absurd hm (by decide)
        · rcases List.mem_cons.mp hm with hm | hm
          · exact absurd hm (by decide)
          · exact (hfv x).2 hm
    have hmapnil : S.map (fun x => x ++ ':' :: ' ' :: f x) ≠ [] := by simp [hSdef]
    have hparse : parse_ai_response (renderRecord (Normalize T S)) =
        S.foldl (fun d x => dictSet d x (f x)) [] := by
      unfold parse_ai_response renderRecord
      rw [hlines, splitOnChar_joinLines _ hmapnil hlines_nn, List.foldl_map]
      exact foldl_congr_mem S _ _ [] (fun d x hx =>
        parseStep_render_line d x (f x) (hS x hx).2.1 (hS x hx).1 (hfv x).1)
    rw [Normalize_eq (renderRecord (Normalize T S)) S, hparse, hNTS]
    apply List.map_congr_left
    intro k hk
    rw [foldl_dictSet_get, if_pos hk]
    rfl

/-- C3 fails as stated for arbitrary schemas: with schema
`["A", "A: X"]`, whose second key contains a colon, and the empty raw
text, re-parsing the rendered record rebinds key `A` to `X:`, so the
round trip does not reproduce the record. -/
theorem normalize_render_roundtrip_cex :
    ¬(Normalize (renderRecord (Normalize [] ["A".data, "A: X".data]))
        ["A".data, "A: X".data] =
      Normalize [] ["A".data, "A: X".data]) := by
  decide

/-- Witness for the amended C3 at the fixed parameter schema. -/
theorem normalize_render_roundtrip_witness :
    (∀ k ∈ parameters, pyUpper (pyStrip k) = k ∧ ':' ∉ k ∧ '\n' ∉ k) ∧
    Normalize (renderRecord (Normalize "BORE DIAMETER: 10 MM".data parameters)) parameters =
      Normalize "BORE DIAMETER: 10 MM".data parameters :=
  ⟨by decide, normalize_render_roundtrip _ parameters (by decide)⟩
